import Mathlib

/-
Verification of localflavor/it/util.py: Italian fiscal-code (SSN) and VAT
number validation and decoding.

The Python source is shallowly embedded below.  Conventions:
  - Python strings are Lean String (operated on through the char list
    String.data); string slicing s[a:b] is strSlice.
  - Python int() applied to a string is pyIntOfString: strips ASCII
    whitespace, accepts an optional sign, then decimal digits possibly
    separated by single underscores (CPython literal syntax).  The model
    covers the ASCII fragment; exotic Unicode digits and case folding
    outside ASCII are out of scope of the claims.
  - str.upper() is modelled per-character with Char.toUpper (ASCII).
  - Exceptions become an Except with an explicit error type PyErr whose
    constructors record the Python error kinds distinguishable by their
    messages (invalid int() literal, checksum mismatch, invalid character
    in the SSN checksum loop, IndexError, a failed assert, and a failed
    list .index lookup).
  - re.match with the anchored fixed-length PATTERN matches a string s iff
    s is exactly the 16 pattern characters, or s is those 16 characters
    followed by one final newline (the re module dollar anchor also
    matches just before a trailing newline).
-/

/-- Decimal value of a digit character. -/
def dval (c : Char) : Nat := c.toNat - 48

/-- The digit character for a value below ten. -/
def digitChar (n : Nat) : Char := Char.ofNat (48 + n)

/-- Fuel-driven decimal representation: the fuel only bounds the
recursion depth so that the definition is structural and computes inside
the kernel. -/
def natReprGo : Nat → Nat → List Char
  | 0, _ => []
  | fuel + 1, n =>
    if n < 10 then [digitChar n]
    else natReprGo fuel (n / 10) ++ [digitChar (n % 10)]

/-- Decimal representation of a natural number, most significant digit
first, as produced by Python str(int). -/
def natRepr (n : Nat) : List Char := natReprGo (n + 1) n

/-- Python str() of an integer: minus sign for negatives, then the
decimal digits without leading zeros. -/
def pyStrOfInt (n : Int) : String :=
  if n < 0 then String.mk ('-' :: natRepr n.natAbs) else String.mk (natRepr n.toNat)

/-- Value of a list of decimal digit characters read left to right. -/
def listVal (l : List Char) : Nat :=
  l.foldl (fun a c => 10 * a + dval c) 0

/-- The ASCII whitespace characters stripped by Python int(). -/
def isPySpace (c : Char) : Bool :=
  c = ' ' || c = '\t' || c = '\n' || c = '\r' || c = '\x0b' || c = '\x0c'

/-- Strip leading and trailing whitespace from a character list. -/
def stripWs (l : List Char) : List Char :=
  ((l.dropWhile isPySpace).reverse.dropWhile isPySpace).reverse

/-- After an initial digit, a valid Python integer literal tail: digits,
with single underscores allowed only between digits. -/
def pyDigitsTail : List Char → Bool
  | [] => true
  | c :: cs =>
    if c = '_' then
      match cs with
      | [] => false
      | d :: ds => d.isDigit && pyDigitsTail ds
    else c.isDigit && pyDigitsTail cs

/-- A nonempty run of decimal digits with single underscores between
digits, as accepted by Python int() after the optional sign. -/
def pyDigitsOk : List Char → Bool
  | [] => false
  | c :: cs => c.isDigit && pyDigitsTail cs

/-- Python int() on a string: none models ValueError. -/
def pyIntOfString (s : String) : Option Int :=
  match stripWs s.data with
  | [] => none
  | c :: rest =>
    if c = '+' then
      if pyDigitsOk rest then some ((listVal (rest.filter (fun x => x ≠ '_')) : Nat) : Int)
      else none
    else if c = '-' then
      if pyDigitsOk rest then some (-((listVal (rest.filter (fun x => x ≠ '_')) : Nat) : Int))
      else none
    else
      if pyDigitsOk (c :: rest) then
        some ((listVal ((c :: rest).filter (fun x => x ≠ '_')) : Nat) : Int)
      else none

/-- An input that is either a Python str or a Python int, the two input
kinds vat_number_validation is used with. -/
inductive PyStrInt where
  | ofStr (s : String)
  | ofInt (n : Int)
deriving DecidableEq

/-- Python int() on a str-or-int value. -/
def pyInt : PyStrInt → Option Int
  | .ofStr s => pyIntOfString s
  | .ofInt n => some n

/-- The textual form of an input, used in error payloads. -/
def rawStr : PyStrInt → String
  | .ofStr s => s
  | .ofInt n => pyStrOfInt n

/-- Python str.zfill: left-pad with zeros to the given width, keeping a
leading sign character in front of the padding. -/
def zfill (s : String) (w : Nat) : String :=
  if w ≤ s.length then s
  else
    match s.data with
    | [] => String.mk (List.replicate w '0')
    | c :: rest =>
      if c = '+' || c = '-' then
        String.mk (c :: (List.replicate (w - s.length) '0' ++ rest))
      else
        String.mk (List.replicate (w - s.length) '0' ++ (c :: rest))

/-- Python slice s[a:b] for 0 ≤ a ≤ b. -/
def strSlice (s : String) (a b : Nat) : String :=
  String.mk ((s.data.drop a).take (b - a))

/-- The error kinds raised by the embedded functions.  In the Python
source all are ValueError (or IndexError / AssertionError), told apart
by their messages. -/
inductive PyErr where
  | invalidLiteral (s : String)
  | checksumMismatch
  | invalidCharacter (c : Char)
  | indexError
  | assertionError
  | notInList
deriving DecidableEq

instance exceptDecEq {ε α : Type} [DecidableEq ε] [DecidableEq α] :
    DecidableEq (Except ε α) := fun a b =>
  match a, b with
  | Except.ok x, Except.ok y =>
    if h : x = y then isTrue (by rw [h]) else
      isFalse (fun hc => h (Except.ok.inj hc))
  | Except.error e, Except.error f =>
    if h : e = f then isTrue (by rw [h]) else
      isFalse (fun hc => h (Except.error.inj hc))
  | Except.ok _, Except.error _ => isFalse (fun hc => Except.noConfusion hc)
  | Except.error _, Except.ok _ => isFalse (fun hc => Except.noConfusion hc)

/-- Python int() on a one-character string, as used on single digits of
the VAT number. -/
def charInt (c : Char) : Except PyErr Nat :=
  if c.isDigit then Except.ok (dval c) else Except.error (PyErr.invalidLiteral (String.mk [c]))

/-- First-match lookup in an association list, modelling a Python dict
built from literal entries with distinct keys. -/
def dictLookup : List (Char × Nat) → Char → Option Nat
  | [], _ => none
  | (k, v) :: rest, c => if c = k then some v else dictLookup rest c

/-
Embedding of the fiscal-code pattern
PATTERN = [A-Z]x6 [0-9]x2 [ABCDEHLMPRST] [0-9]x2 [A-Z] [0-9] [A-Z0-9] [0-9] [A-Z]
anchored on both sides.
-/

/-- ASCII uppercase letter, the regex class A to Z. -/
def isUpperAZ (c : Char) : Bool := 'A' ≤ c && c ≤ 'Z'

/-- The regex class of the twelve month letters. -/
def isMonthClass (c : Char) : Bool :=
  c ∈ ['A', 'B', 'C', 'D', 'E', 'H', 'L', 'M', 'P', 'R', 'S', 'T']

/-- The sixteen character classes of PATTERN, in order. -/
def patternClasses : List (Char → Bool) :=
  List.replicate 6 isUpperAZ ++
    [Char.isDigit, Char.isDigit, isMonthClass, Char.isDigit, Char.isDigit,
     isUpperAZ, Char.isDigit, fun c => isUpperAZ c || c.isDigit, Char.isDigit, isUpperAZ]

/-- A character list matches a list of character classes exactly. -/
def matchClasses : List (Char → Bool) → List Char → Bool
  | [], [] => true
  | p :: ps, c :: cs => p c && matchClasses ps cs
  | _, _ => false

/-- Python re.match of the anchored PATTERN: the whole string matches, or
the whole string up to one final newline matches (the dollar anchor of
the re module also matches just before a trailing newline). -/
def reMatchPattern (l : List Char) : Bool :=
  matchClasses patternClasses l ||
    (l.getLast? = some '\n' && matchClasses patternClasses l.dropLast)

/-- A Python value that is either a str or something that is not a str,
the domain of ssn_isvalid. -/
inductive PyVal where
  | pyStr (s : String)
  | nonStr
deriving DecidableEq

/-- Source ssn_isvalid: isinstance str check, then re.match on PATTERN. -/
def ssn_isvalid : PyVal → Bool
  | .pyStr s => reMatchPattern s.data
  | .nonStr => false

/-- ssn_isvalid on a string input. -/
def ssn_isvalidStr (s : String) : Bool := reMatchPattern s.data

/-- Source MONTHSCODE list. -/
def MONTHSCODE : List Char :=
  ['A', 'B', 'C', 'D', 'E', 'H', 'L', 'M', 'P', 'R', 'S', 'T']

/-- Python percent formatting with 02d: zero-pad the decimal form to
width two (the sign counts toward the width). -/
def fmt02 (n : Int) : String :=
  if 2 ≤ (pyStrOfInt n).length then pyStrOfInt n else "0" ++ pyStrOfInt n

/-- Source ssn_get_birthday.  The assert on ssn_isvalid is the first
step; day uses the source truthiness expression
day less-than 32 and day or day minus 40, which keeps day only when it
is both below 32 and nonzero. -/
def ssn_get_birthday (code : String) : Except PyErr String :=
  if ssn_isvalidStr code then
    match pyIntOfString (strSlice code 9 11), pyIntOfString (strSlice code 6 8) with
    | some day0, some year =>
      match MONTHSCODE.indexOf? (code.data.getD 8 ' ') with
      | some mi =>
        Except.ok
          (fmt02 (if day0 < 32 ∧ day0 ≠ 0 then day0 else day0 - 40) ++ "/" ++
            fmt02 ((mi : Int) + 1) ++ "/" ++ fmt02 year)
      | none => Except.error PyErr.notInList
    | _, _ => Except.error (PyErr.invalidLiteral (strSlice code 9 11))
  else Except.error PyErr.assertionError

/-- Source ssn_get_sex: assert ssn_isvalid, then M when the raw day
value is below 32, F otherwise. -/
def ssn_get_sex (code : String) : Except PyErr String :=
  if ssn_isvalidStr code then
    match pyIntOfString (strSlice code 9 11) with
    | some day0 => Except.ok (if day0 < 32 then "M" else "F")
    | none => Except.error (PyErr.invalidLiteral (strSlice code 9 11))
  else Except.error PyErr.assertionError

/-- Source dict ssn_even_chars, entries in source order. -/
def ssn_even_pairs : List (Char × Nat) :=
  [('0', 0), ('1', 1), ('2', 2), ('3', 3), ('4', 4), ('5', 5), ('6', 6), ('7', 7), ('8', 8),
   ('9', 9), ('A', 0), ('B', 1), ('C', 2), ('D', 3), ('E', 4), ('F', 5), ('G', 6), ('H', 7),
   ('I', 8), ('J', 9), ('K', 10), ('L', 11), ('M', 12), ('N', 13), ('O', 14), ('P', 15),
   ('Q', 16), ('R', 17), ('S', 18), ('T', 19), ('U', 20), ('V', 21), ('W', 22), ('X', 23),
   ('Y', 24), ('Z', 25)]

/-- Source dict ssn_odd_chars, entries in source order. -/
def ssn_odd_pairs : List (Char × Nat) :=
  [('0', 1), ('1', 0), ('2', 5), ('3', 7), ('4', 9), ('5', 13), ('6', 15), ('7', 17),
   ('8', 19), ('9', 21), ('A', 1), ('B', 0), ('C', 5), ('D', 7), ('E', 9), ('F', 13),
   ('G', 15), ('H', 17), ('I', 19), ('J', 21), ('K', 2), ('L', 4), ('M', 18), ('N', 20),
   ('O', 11), ('P', 3), ('Q', 6), ('R', 8), ('S', 12), ('T', 14), ('U', 16), ('V', 10),
   ('W', 22), ('X', 25), ('Y', 24), ('Z', 23)]

/-- Lookup in the even-position dict. -/
def ssn_even_chars (c : Char) : Option Nat := dictLookup ssn_even_pairs c

/-- Lookup in the odd-position dict. -/
def ssn_odd_chars (c : Char) : Option Nat := dictLookup ssn_odd_pairs c

/-- Source ssn_check_digits: the characters A through Z. -/
def ssn_check_digits : List Char :=
  (List.range 26).map (fun x => Char.ofNat (65 + x))

/-- The loop of ssn_check_digit over a list of indices: index the
uppercased string (IndexError when too short), look the character up in
the odd table at even indices and the even table at odd indices
(ValueError naming the character when absent), and sum the weights. -/
def ssnSumAux (ssn : List Char) : List Nat → Except PyErr Nat
  | [] => Except.ok 0
  | i :: rest =>
    match ssn[i]? with
    | none => Except.error PyErr.indexError
    | some c =>
      match (if i % 2 = 0 then ssn_odd_chars c else ssn_even_chars c) with
      | none => Except.error (PyErr.invalidCharacter c)
      | some w =>
        match ssnSumAux ssn rest with
        | Except.error e => Except.error e
        | Except.ok s => Except.ok (w + s)

/-- Source ssn_check_digit: uppercase, sum the weights of the first 15
characters, and index ssn_check_digits by the sum modulo 26. -/
def ssn_check_digit (value : String) : Except PyErr Char :=
  match ssnSumAux (value.data.map Char.toUpper) (List.range 15) with
  | Except.error e => Except.error e
  | Except.ok total => Except.ok (ssn_check_digits.getD (total % 26) 'A')

/-- Source ssn_validation: compute the check digit, compare with the
character at index 15 (IndexError when the string is shorter), raise on
mismatch and return the input unchanged otherwise. -/
def ssn_validation (ssn_value : String) : Except PyErr String :=
  match ssn_check_digit ssn_value with
  | Except.error e => Except.error e
  | Except.ok check_digit =>
    match ssn_value.data[15]? with
    | none => Except.error PyErr.indexError
    | some c =>
      if c ≠ check_digit then Except.error PyErr.checksumMismatch
      else Except.ok ssn_value

/-- The two summation loops of vat_number_check_digit over a list of
indices, applying f to each digit value (f is the identity for even
indices and the doubled digit-sum for odd indices). -/
def vatSumAt (nv : List Char) (f : Nat → Nat) : List Nat → Except PyErr Nat
  | [] => Except.ok 0
  | i :: rest =>
    match charInt (nv.getD i ' ') with
    | Except.error e => Except.error e
    | Except.ok d =>
      match vatSumAt nv f rest with
      | Except.error e => Except.error e
      | Except.ok s => Except.ok (f d + s)

/-- Source vat_number_check_digit: zero-pad to ten characters, add the
digits at even indices, add quotient plus remainder of twice the digits
at odd indices, and return the digit (10 minus the sum modulo 10)
modulo 10. -/
def vat_number_check_digit (vat_number : String) : Except PyErr Char :=
  match vatSumAt (zfill vat_number 10).data (fun d => d) [0, 2, 4, 6, 8] with
  | Except.error e => Except.error e
  | Except.ok t1 =>
    match vatSumAt (zfill vat_number 10).data (fun d => d * 2 / 10 + d * 2 % 10) [1, 3, 5, 7, 9] with
    | Except.error e => Except.error e
    | Except.ok t2 => Except.ok (digitChar ((10 - (t1 + t2) % 10) % 10))

/-- Source vat_number_validation: int() the input (ValueError when not
parseable), str() and zero-pad to eleven characters, compute the check
digit of the first ten characters, compare with the character at index
ten, raise on mismatch and return the normalized string otherwise. -/
def vat_number_validation (v : PyStrInt) : Except PyErr String :=
  match pyInt v with
  | none => Except.error (PyErr.invalidLiteral (rawStr v))
  | some n =>
    match vat_number_check_digit (strSlice (zfill (pyStrOfInt n) 11) 0 10) with
    | Except.error e => Except.error e
    | Except.ok cd =>
      if (zfill (pyStrOfInt n) 11).data.getD 10 ' ' ≠ cd then
        Except.error PyErr.checksumMismatch
      else Except.ok (zfill (pyStrOfInt n) 11)

/-
Spec-side definitions, written from the words of the specification, to be
compared with the embedded source functions.
-/

/-- The 36-character alphabet of the SSN checksum tables. -/
def ssnAlphabet : List Char :=
  ['0', '1', '2', '3', '4', '5', '6', '7', '8', '9',
   'A', 'B', 'C', 'D', 'E', 'F', 'G', 'H', 'I', 'J', 'K', 'L', 'M',
   'N', 'O', 'P', 'Q', 'R', 'S', 'T', 'U', 'V', 'W', 'X', 'Y', 'Z']

/-- Spec odd-position weights for the digits 0 to 9, as listed. -/
def specOddDigit : List Nat := [1, 0, 5, 7, 9, 13, 15, 17, 19, 21]

/-- Spec odd-position weights for the letters A to Z, as listed. -/
def specOddLetter : List Nat :=
  [1, 0, 5, 7, 9, 13, 15, 17, 19, 21, 2, 4, 18, 20, 11, 3, 6, 8, 12, 14, 16, 10, 22, 25, 24, 23]

/-- Spec even-position weights for the digits 0 to 9, as listed. -/
def specEvenDigit : List Nat := [0, 1, 2, 3, 4, 5, 6, 7, 8, 9]

/-- Spec even-position weights for the letters A to Z, as listed. -/
def specEvenLetter : List Nat :=
  [0, 1, 2, 3, 4, 5, 6, 7, 8, 9, 10, 11, 12, 13, 14, 15, 16, 17, 18, 19, 20, 21, 22, 23, 24, 25]

/-- Spec odd-position weight of an alphabet character. -/
def specOddW (c : Char) : Nat :=
  if c.isDigit then specOddDigit.getD (c.toNat - 48) 0 else specOddLetter.getD (c.toNat - 65) 0

/-- Spec even-position weight of an alphabet character. -/
def specEvenW (c : Char) : Nat :=
  if c.isDigit then specEvenDigit.getD (c.toNat - 48) 0 else specEvenLetter.getD (c.toNat - 65) 0

/-- Spec weight of a character at a 0-based index: the odd-position table
at even indices, the even-position table at odd indices. -/
def specWeight (i : Nat) (c : Char) : Nat :=
  if i % 2 = 0 then specOddW c else specEvenW c

/-- Spec VAT sum over a ten-character digit list: digits at even 0-based
positions directly, and quotient plus remainder of the doubled digits at
odd 0-based positions. -/
def specVatSum (l : List Char) : Nat :=
  (dval (l.getD 0 ' ') + dval (l.getD 2 ' ') + dval (l.getD 4 ' ') +
    dval (l.getD 6 ' ') + dval (l.getD 8 ' ')) +
  ((2 * dval (l.getD 1 ' ')) / 10 + (2 * dval (l.getD 1 ' ')) % 10 +
   ((2 * dval (l.getD 3 ' ')) / 10 + (2 * dval (l.getD 3 ' ')) % 10) +
   ((2 * dval (l.getD 5 ' ')) / 10 + (2 * dval (l.getD 5 ' ')) % 10) +
   ((2 * dval (l.getD 7 ' ')) / 10 + (2 * dval (l.getD 7 ' ')) % 10) +
   ((2 * dval (l.getD 9 ' ')) / 10 + (2 * dval (l.getD 9 ' ')) % 10))

/-- Spec character class at each of the sixteen positions of the fiscal
code pattern. -/
def specClassAt (i : Nat) (c : Char) : Bool :=
  if i < 6 then isUpperAZ c
  else if i < 8 then c.isDigit
  else if i = 8 then isMonthClass c
  else if i < 11 then c.isDigit
  else if i = 11 then isUpperAZ c
  else if i = 12 then c.isDigit
  else if i = 13 then isUpperAZ c || c.isDigit
  else if i = 14 then c.isDigit
  else isUpperAZ c

/-- Spec structural pattern: exactly sixteen characters, each in its
positional class. -/
def spec_pattern_ok (s : String) : Prop :=
  s.length = 16 ∧ ∀ i, i < 16 → specClassAt i (s.data.getD i ' ') = true

instance spec_pattern_ok_decidable (s : String) : Decidable (spec_pattern_ok s) := by
  unfold spec_pattern_ok
  infer_instance

/-
Helper lemmas.
-/

theorem length_eq_data_length (s : String) : s.length = s.data.length := rfl

theorem dictLookup_eq_none (l : List (Char × Nat)) (c : Char)
    (h : c ∉ l.map Prod.fst) : dictLookup l c = none := by
  induction l with
  | nil => rfl
  | cons p rest ih =>
    simp only [List.map_cons, List.mem_cons] at h
    push_neg at h
    simp only [dictLookup, if_neg h.1]
    exact ih h.2

theorem odd_pairs_keys : ssn_odd_pairs.map Prod.fst = ssnAlphabet := by decide

theorem even_pairs_keys : ssn_even_pairs.map Prod.fst = ssnAlphabet := by decide

theorem ssn_odd_chars_mem (c : Char) (h : c ∈ ssnAlphabet) :
    ssn_odd_chars c = some (specOddW c) := by
  fin_cases h <;> rfl

theorem ssn_even_chars_mem (c : Char) (h : c ∈ ssnAlphabet) :
    ssn_even_chars c = some (specEvenW c) := by
  fin_cases h <;> rfl

theorem ssn_odd_chars_not_mem (c : Char) (h : c ∉ ssnAlphabet) :
    ssn_odd_chars c = none := by
  apply dictLookup_eq_none
  rw [odd_pairs_keys]
  exact h

theorem ssn_even_chars_not_mem (c : Char) (h : c ∉ ssnAlphabet) :
    ssn_even_chars c = none := by
  apply dictLookup_eq_none
  rw [even_pairs_keys]
  exact h

theorem toUpper_mem_fix (c : Char) (h : c ∈ ssnAlphabet) : c.toUpper = c := by
  fin_cases h <;> rfl

theorem ssnSumAux_ok (ssn : List Char) (is : List Nat)
    (h : ∀ i ∈ is, ∃ c, ssn[i]? = some c ∧ c ∈ ssnAlphabet) :
    ssnSumAux ssn is = Except.ok ((is.map (fun i => specWeight i (ssn.getD i ' '))).sum) := by
  induction is with
  | nil => rfl
  | cons i rest ih =>
    obtain ⟨c, hc, hmem⟩ := h i (List.mem_cons_self i rest)
    have hgetD : ssn.getD i ' ' = c := by
      rw [List.getD_eq_getElem?_getD, hc]
      rfl
    have hrest := ih (fun j hj => h j (List.mem_cons_of_mem i hj))
    simp only [ssnSumAux, hc, hrest]
    by_cases hpar : i % 2 = 0
    · simp only [if_pos hpar, ssn_odd_chars_mem c hmem, List.map_cons, List.sum_cons,
        specWeight, hgetD]
    · simp only [if_neg hpar, ssn_even_chars_mem c hmem, List.map_cons, List.sum_cons,
        specWeight, hgetD]

theorem ssnSumAux_congr (l1 l2 : List Char) (is : List Nat)
    (h : ∀ i ∈ is, l1[i]? = l2[i]?) : ssnSumAux l1 is = ssnSumAux l2 is := by
  induction is with
  | nil => rfl
  | cons i rest ih =>
    have hrest := ih (fun j hj => h j (List.mem_cons_of_mem i hj))
    simp only [ssnSumAux, h i (List.mem_cons_self i rest), hrest]

theorem ssnSumAux_err (ssn : List Char) (is : List Nat)
    (hlen : ∀ i ∈ is, i < ssn.length)
    (hex : ∃ i ∈ is, ssn.getD i ' ' ∉ ssnAlphabet) :
    ∃ c, ssnSumAux ssn is = Except.error (PyErr.invalidCharacter c) ∧
      ∃ j ∈ is, ssn.getD j ' ' = c ∧ c ∉ ssnAlphabet := by
  induction is with
  | nil => simp at hex
  | cons i rest ih =>
    have hi : i < ssn.length := hlen i (List.mem_cons_self i rest)
    have hsome : ssn[i]? = some (ssn.getD i ' ') := by
      rw [List.getElem?_eq_getElem hi, List.getD_eq_getElem?_getD,
        List.getElem?_eq_getElem hi]
      rfl
    by_cases hmem : ssn.getD i ' ' ∈ ssnAlphabet
    · have hex2 : ∃ j ∈ rest, ssn.getD j ' ' ∉ ssnAlphabet := by
        obtain ⟨j, hj, hnj⟩ := hex
        rcases List.mem_cons.1 hj with rfl | hj2
        · exact absurd hmem hnj
        · exact ⟨j, hj2, hnj⟩
      obtain ⟨c, hc, j, hj, hjc, hcn⟩ := ih (fun j hj => hlen j (List.mem_cons_of_mem i hj)) hex2
      refine ⟨c, ?_, j, List.mem_cons_of_mem i hj, hjc, hcn⟩
      by_cases hpar : i % 2 = 0
      · simp only [ssnSumAux, hsome, if_pos hpar,
          ssn_odd_chars_mem _ hmem, hc]
      · simp only [ssnSumAux, hsome, if_neg hpar,
          ssn_even_chars_mem _ hmem, hc]
    · refine ⟨ssn.getD i ' ', ?_, i, List.mem_cons_self i rest, rfl, hmem⟩
      by_cases hpar : i % 2 = 0
      · simp only [ssnSumAux, hsome, if_pos hpar, ssn_odd_chars_not_mem _ hmem]
      · simp only [ssnSumAux, hsome, if_neg hpar, ssn_even_chars_not_mem _ hmem]

theorem check_digits_getD (t : Nat) :
    ssn_check_digits.getD (t % 26) 'A' = Char.ofNat (65 + t % 26) := by
  have h : t % 26 < 26 := Nat.mod_lt t (by omega)
  set k := t % 26 with hk
  interval_cases k <;> rfl

theorem ofNat_65_in_AZ (k : Nat) (h : k < 26) :
    'A' ≤ Char.ofNat (65 + k) ∧ Char.ofNat (65 + k) ≤ 'Z' := by
  interval_cases k <;> exact ⟨by decide, by decide⟩

theorem natReprGo_congr (n : Nat) :
    ∀ f1 f2, n < f1 → n < f2 → natReprGo f1 n = natReprGo f2 n := by
  induction n using Nat.strong_induction_on with
  | _ n ih =>
    intro f1 f2 h1 h2
    cases f1 with
    | zero => omega
    | succ g1 =>
      cases f2 with
      | zero => omega
      | succ g2 =>
        simp only [natReprGo]
        by_cases h : n < 10
        · rw [if_pos h, if_pos h]
        · have hd : n / 10 < n := Nat.div_lt_self (by omega) (by omega)
          rw [if_neg h, if_neg h, ih (n / 10) hd g1 g2 (by omega) (by omega)]

theorem natRepr_unfold (n : Nat) :
    natRepr n = if n < 10 then [digitChar n] else natRepr (n / 10) ++ [digitChar (n % 10)] := by
  by_cases h : n < 10
  · rw [if_pos h, natRepr]
    simp only [natReprGo, if_pos h]
  · rw [if_neg h]
    have hd : n / 10 < n := Nat.div_lt_self (by omega) (by omega)
    have hstep : natReprGo (n + 1) n = natReprGo n (n / 10) ++ [digitChar (n % 10)] := by
      simp only [natReprGo, if_neg h]
    rw [natRepr, natRepr, hstep, natReprGo_congr (n / 10) n (n / 10 + 1) hd (by omega)]

theorem digitChar_isDigit (d : Nat) (h : d < 10) : (digitChar d).isDigit = true := by
  interval_cases d <;> decide

theorem dval_digitChar (d : Nat) (h : d < 10) : dval (digitChar d) = d := by
  interval_cases d <;> rfl

theorem natRepr_digits (n : Nat) : ∀ c ∈ natRepr n, c.isDigit = true := by
  induction n using Nat.strong_induction_on with
  | _ n ih =>
    rw [natRepr_unfold]
    split
    · intro c hc
      rw [List.mem_singleton] at hc
      subst hc
      exact digitChar_isDigit n (by omega)
    · intro c hc
      rcases List.mem_append.1 hc with h1 | h2
      · exact ih (n / 10) (Nat.div_lt_self (by omega) (by omega)) c h1
      · rw [List.mem_singleton] at h2
        subst h2
        exact digitChar_isDigit _ (Nat.mod_lt _ (by omega))

theorem natRepr_ne_nil (n : Nat) : natRepr n ≠ [] := by
  rw [natRepr_unfold]
  split
  · simp
  · simp

theorem natRepr_foldl (n : Nat) :
    ∀ a : Nat, (natRepr n).foldl (fun a c => 10 * a + dval c) a =
      a * 10 ^ (natRepr n).length + n := by
  induction n using Nat.strong_induction_on with
  | _ n ih =>
    intro a
    rw [natRepr_unfold]
    split
    · next h =>
      simp only [List.foldl_cons, List.foldl_nil, List.length_singleton]
      rw [dval_digitChar n h]
      ring
    · next h =>
      rw [List.foldl_append, List.length_append, ih (n / 10) (Nat.div_lt_self (by omega) (by omega)) a]
      simp only [List.foldl_cons, List.foldl_nil, List.length_singleton]
      rw [dval_digitChar _ (Nat.mod_lt _ (by omega))]
      have hdm : 10 * (n / 10) + n % 10 = n := Nat.div_add_mod n 10
      rw [pow_succ]
      nlinarith [hdm]

theorem listVal_natRepr (n : Nat) : listVal (natRepr n) = n := by
  have h := natRepr_foldl n 0
  simpa [listVal] using h

theorem listVal_replicate_zero (k : Nat) (l : List Char) :
    listVal (List.replicate k '0' ++ l) = listVal l := by
  induction k with
  | zero => rfl
  | succ m ih =>
    simp only [List.replicate_succ, List.cons_append, listVal, List.foldl_cons] at ih ⊢
    simpa [dval] using ih

theorem digit_not_space (c : Char) (h : c.isDigit = true) : isPySpace c = false := by
  simp only [Char.isDigit] at h
  simp only [isPySpace, Bool.or_eq_false_iff, decide_eq_false_iff_not]
  refine ⟨⟨⟨⟨⟨?_, ?_⟩, ?_⟩, ?_⟩, ?_⟩, ?_⟩ <;> rintro rfl <;> simp_all

theorem digit_ne_underscore (c : Char) (h : c.isDigit = true) : c ≠ '_' := by
  rintro rfl
  simp [Char.isDigit] at h

theorem digit_ne_plus (c : Char) (h : c.isDigit = true) : c ≠ '+' := by
  rintro rfl
  simp [Char.isDigit] at h

theorem digit_ne_minus (c : Char) (h : c.isDigit = true) : c ≠ '-' := by
  rintro rfl
  simp [Char.isDigit] at h

theorem dropWhile_all_neg (p : Char → Bool) (l : List Char)
    (h : ∀ c ∈ l, p c = false) : l.dropWhile p = l := by
  cases l with
  | nil => rfl
  | cons c cs =>
    rw [List.dropWhile_cons, h c (List.mem_cons_self c cs)]
    simp

theorem stripWs_all_digit (l : List Char) (h : ∀ c ∈ l, c.isDigit = true) :
    stripWs l = l := by
  have h1 : l.dropWhile isPySpace = l :=
    dropWhile_all_neg _ _ (fun c hc => digit_not_space c (h c hc))
  have h2 : l.reverse.dropWhile isPySpace = l.reverse :=
    dropWhile_all_neg _ _ (fun c hc => digit_not_space c (h c (List.mem_reverse.1 hc)))
  simp [stripWs, h1, h2]

theorem pyDigitsTail_all (l : List Char) (h : ∀ c ∈ l, c.isDigit = true) :
    pyDigitsTail l = true := by
  induction l with
  | nil => rfl
  | cons c cs ih =>
    have hc := h c (List.mem_cons_self c cs)
    rw [pyDigitsTail.eq_def]
    simp only [if_neg (digit_ne_underscore c hc), hc, Bool.true_and]
    exact ih (fun d hd => h d (List.mem_cons_of_mem c hd))

theorem pyIntOfString_digits (l : List Char) (hne : l ≠ [])
    (h : ∀ c ∈ l, c.isDigit = true) :
    pyIntOfString (String.mk l) = some ((listVal l : Nat) : Int) := by
  have hdata : (String.mk l).data = l := rfl
  rw [pyIntOfString, hdata, stripWs_all_digit l h]
  cases l with
  | nil => exact absurd rfl hne
  | cons c cs =>
    have hc := h c (List.mem_cons_self c cs)
    have hok : pyDigitsOk (c :: cs) = true := by
      rw [pyDigitsOk, hc]
      simpa using pyDigitsTail_all cs (fun d hd => h d (List.mem_cons_of_mem c hd))
    have hfil : (c :: cs).filter (fun x => x ≠ '_') = c :: cs :=
      List.filter_eq_self.2 (fun a ha => by
        simpa using digit_ne_underscore a (h a ha))
    simp only [if_neg (digit_ne_plus c hc), if_neg (digit_ne_minus c hc), if_pos hok, hfil]

theorem zfill_of_le (s : String) (w : Nat) (h : w ≤ s.length) : zfill s w = s := by
  rw [zfill, if_pos h]

theorem zfill_data_digits (s : String) (w : Nat)
    (h : ∀ c ∈ s.data, c.isDigit = true) :
    ∀ c ∈ (zfill s w).data, c.isDigit = true := by
  rw [zfill]
  split
  · exact h
  · split
    · next heq =>
      intro c hc
      simp only [String.mk] at hc
      rw [List.mem_replicate] at hc
      rw [hc.2]
      decide
    · next c rest heq =>
      have hc := h c (by rw [heq]; exact List.mem_cons_self c rest)
      rw [if_neg (by simp [digit_ne_plus c hc, digit_ne_minus c hc])]
      intro d hd
      simp only [String.mk] at hd
      rcases List.mem_append.1 hd with h1 | h2
      · rw [List.mem_replicate] at h1
        rw [h1.2]
        decide
      · exact h d (by rw [heq]; exact h2)

theorem mk_length (l : List Char) : (String.mk l).length = l.length := rfl

theorem zfill_length (s : String) (w : Nat) :
    (zfill s w).length = max w s.length := by
  rw [zfill]
  split
  · next h => omega
  · next h =>
    split
    · next heq =>
      have h0 : s.length = 0 := by
        rw [length_eq_data_length, heq]
        rfl
      rw [mk_length, List.length_replicate]
      omega
    · next c rest heq =>
      have hlen : s.length = rest.length + 1 := by
        rw [length_eq_data_length, heq]
        rfl
      split
      · rw [mk_length]
        simp only [List.length_cons, List.length_append, List.length_replicate]
        omega
      · rw [mk_length]
        simp only [List.length_append, List.length_replicate, List.length_cons]
        omega

theorem mk_data (s : String) : String.mk s.data = s := rfl

theorem getD_isDigit (l : List Char) (h : ∀ c ∈ l, c.isDigit = true) (i : Nat)
    (hi : i < l.length) : (l.getD i ' ').isDigit = true := by
  rw [List.getD_eq_getElem?_getD, List.getElem?_eq_getElem hi]
  exact h _ (List.getElem_mem hi)

theorem vatSumAt_ok (nv : List Char) (f : Nat → Nat) (is : List Nat)
    (h : ∀ i ∈ is, (nv.getD i ' ').isDigit = true) :
    vatSumAt nv f is = Except.ok ((is.map (fun i => f (dval (nv.getD i ' ')))).sum) := by
  induction is with
  | nil => rfl
  | cons i rest ih =>
    have hi := h i (List.mem_cons_self i rest)
    have hrest := ih (fun j hj => h j (List.mem_cons_of_mem i hj))
    simp only [vatSumAt, charInt, if_pos hi, hrest, List.map_cons, List.sum_cons]

theorem vat_check_digit_ok (s : String) (h : ∀ c ∈ s.data, c.isDigit = true) :
    vat_number_check_digit s =
      Except.ok (digitChar ((10 - specVatSum (zfill s 10).data % 10) % 10)) := by
  have hall : ∀ c ∈ (zfill s 10).data, c.isDigit = true := zfill_data_digits s 10 h
  have hlen : 10 ≤ (zfill s 10).data.length := by
    have h2 := zfill_length s 10
    rw [length_eq_data_length] at h2
    omega
  have he := vatSumAt_ok (zfill s 10).data (fun d => d) [0, 2, 4, 6, 8]
    (fun i hi => getD_isDigit _ hall i (by fin_cases hi <;> omega))
  have ho := vatSumAt_ok (zfill s 10).data (fun d => d * 2 / 10 + d * 2 % 10) [1, 3, 5, 7, 9]
    (fun i hi => getD_isDigit _ hall i (by fin_cases hi <;> omega))
  simp only [vat_number_check_digit, he, ho, List.map_cons, List.map_nil, List.sum_cons,
    List.sum_nil]
  congr 2
  simp only [specVatSum]
  omega

theorem zfill_head_neg (s : String) (r : List Char) (w : Nat) (heq : s.data = '-' :: r) :
    ∃ r2 : List Char, (zfill s w).data = '-' :: r2 := by
  rw [zfill]
  split
  · exact ⟨r, heq⟩
  · simp only [heq]
    rw [if_pos (by decide)]
    exact ⟨List.replicate (w - s.length) '0' ++ r, rfl⟩

theorem vat_check_digit_head_minus (s : String) (r : List Char) (heq : s.data = '-' :: r)
    (hlen : 10 ≤ s.length) :
    vat_number_check_digit s = Except.error (PyErr.invalidLiteral "-") := by
  have hz : zfill s 10 = s := zfill_of_le s 10 hlen
  have h0 : (zfill s 10).data.getD 0 ' ' = '-' := by
    rw [hz, heq]
    rfl
  have hci : charInt '-' = Except.error (PyErr.invalidLiteral "-") := rfl
  simp only [vat_number_check_digit, vatSumAt, h0, hci]

theorem pyStrOfInt_data_nonneg (n : Int) (hn : 0 ≤ n) :
    (pyStrOfInt n).data = natRepr n.toNat := by
  rw [pyStrOfInt, if_neg (by omega)]

theorem pyStrOfInt_digits (n : Int) (hn : 0 ≤ n) :
    ∀ c ∈ (pyStrOfInt n).data, c.isDigit = true := by
  rw [pyStrOfInt_data_nonneg n hn]
  exact natRepr_digits _

theorem vat_validation_neg (v : PyStrInt) (n : Int) (h : pyInt v = some n) (hn : n < 0) :
    vat_number_validation v = Except.error (PyErr.invalidLiteral "-") := by
  have hdata : (pyStrOfInt n).data = '-' :: natRepr n.natAbs := by
    rw [pyStrOfInt, if_pos hn]
  obtain ⟨r2, hr2⟩ := zfill_head_neg (pyStrOfInt n) _ 11 hdata
  have hzl : 11 ≤ (zfill (pyStrOfInt n) 11).length := by
    have h2 := zfill_length (pyStrOfInt n) 11
    omega
  have hr2len : 10 ≤ r2.length := by
    rw [length_eq_data_length, hr2] at hzl
    simp at hzl
    omega
  have hslice : (strSlice (zfill (pyStrOfInt n) 11) 0 10).data = '-' :: r2.take 9 := by
    simp [strSlice, hr2]
  have hslen : 10 ≤ (strSlice (zfill (pyStrOfInt n) 11) 0 10).length := by
    rw [length_eq_data_length, hslice]
    simp only [List.length_cons, List.length_take]
    omega
  have hcd := vat_check_digit_head_minus _ _ hslice hslen
  simp only [vat_number_validation, h, hcd]

theorem vat_validation_some (v : PyStrInt) (n : Int) (h : pyInt v = some n) (cd : Char)
    (hcd : vat_number_check_digit (strSlice (zfill (pyStrOfInt n) 11) 0 10) = Except.ok cd) :
    vat_number_validation v =
      (if (zfill (pyStrOfInt n) 11).data.getD 10 ' ' ≠ cd then Except.error PyErr.checksumMismatch
       else Except.ok (zfill (pyStrOfInt n) 11)) := by
  simp only [vat_number_validation, h, hcd]

theorem slice_digits (s : String) (a b : Nat) (h : ∀ c ∈ s.data, c.isDigit = true) :
    ∀ c ∈ (strSlice s a b).data, c.isDigit = true := by
  intro c hc
  simp only [strSlice] at hc
  exact h c (List.mem_of_mem_drop (List.mem_of_mem_take hc))

theorem zfill_pyStr_decomp (n : Int) (hn : 0 ≤ n) :
    ∃ k, (zfill (pyStrOfInt n) 11).data = List.replicate k '0' ++ natRepr n.toNat := by
  rw [zfill]
  split
  · exact ⟨0, by simpa using pyStrOfInt_data_nonneg n hn⟩
  · obtain ⟨c, cs, hcons⟩ := List.exists_cons_of_ne_nil (natRepr_ne_nil n.toNat)
    have hdata : (pyStrOfInt n).data = c :: cs := by
      rw [pyStrOfInt_data_nonneg n hn, hcons]
    have hc : c.isDigit = true := by
      have := natRepr_digits n.toNat c (by rw [hcons]; exact List.mem_cons_self c cs)
      exact this
    simp only [hdata]
    rw [if_neg (by simp [digit_ne_plus c hc, digit_ne_minus c hc])]
    exact ⟨11 - (pyStrOfInt n).length, by rw [← hcons, ← pyStrOfInt_data_nonneg n hn, hdata]⟩

theorem pyInt_zfill_pyStr (n : Int) (hn : 0 ≤ n) :
    pyIntOfString (zfill (pyStrOfInt n) 11) = some n := by
  obtain ⟨k, hk⟩ := zfill_pyStr_decomp n hn
  have hall : ∀ c ∈ (zfill (pyStrOfInt n) 11).data, c.isDigit = true :=
    zfill_data_digits _ _ (pyStrOfInt_digits n hn)
  have hne : (zfill (pyStrOfInt n) 11).data ≠ [] := by
    rw [hk]
    intro hcon
    exact natRepr_ne_nil n.toNat (List.append_eq_nil.1 hcon).2
  have h2 := pyIntOfString_digits (zfill (pyStrOfInt n) 11).data hne hall
  rw [mk_data] at h2
  rw [h2, hk, listVal_replicate_zero, listVal_natRepr]
  rw [Int.toNat_of_nonneg hn]

theorem vat_validation_ok_inv (v : PyStrInt) (s : String)
    (h : vat_number_validation v = Except.ok s) :
    ∃ n cd, pyInt v = some n ∧ 0 ≤ n ∧ s = zfill (pyStrOfInt n) 11 ∧
      vat_number_check_digit (strSlice s 0 10) = Except.ok cd ∧ s.data.getD 10 ' ' = cd := by
  cases hv : pyInt v with
  | none => simp [vat_number_validation, hv] at h
  | some n =>
    by_cases hn : n < 0
    · rw [vat_validation_neg v n hv hn] at h
      simp at h
    · push_neg at hn
      cases hcd : vat_number_check_digit (strSlice (zfill (pyStrOfInt n) 11) 0 10) with
      | error e => simp [vat_number_validation, hv, hcd] at h
      | ok cd =>
        rw [vat_validation_some v n hv cd hcd] at h
        by_cases hq : (zfill (pyStrOfInt n) 11).data.getD 10 ' ' ≠ cd
        · rw [if_pos hq] at h
          simp at h
        · rw [if_neg hq] at h
          push_neg at hq
          have hs : s = zfill (pyStrOfInt n) 11 := (Except.ok.inj h).symm
          subst hs
          exact ⟨n, cd, rfl, hn, rfl, hcd, hq⟩

theorem getD_getElem? (l : List Char) (i : Nat) (hi : i < l.length) :
    l[i]? = some (l.getD i ' ') := by
  rw [List.getElem?_eq_getElem hi, List.getD_eq_getElem?_getD, List.getElem?_eq_getElem hi]
  rfl

theorem matchClasses_iff (ps : List (Char → Bool)) (l : List Char) :
    matchClasses ps l = true ↔
      (l.length = ps.length ∧
        ∀ i, i < ps.length → ps.getD i (fun _ => false) (l.getD i ' ') = true) := by
  induction ps generalizing l with
  | nil =>
    cases l with
    | nil => simp [matchClasses]
    | cons c cs => simp [matchClasses]
  | cons p ps ih =>
    cases l with
    | nil => simp [matchClasses]
    | cons c cs =>
      have harm : matchClasses (p :: ps) (c :: cs) = (p c && matchClasses ps cs) := rfl
      rw [harm]
      simp only [Bool.and_eq_true, ih cs, List.length_cons]
      constructor
      · rintro ⟨hp, hlen, hrest⟩
        refine ⟨by omega, ?_⟩
        intro i hi
        cases i with
        | zero => simpa using hp
        | succ j =>
          simpa using hrest j (by omega)
      · rintro ⟨hlen, hall⟩
        refine ⟨by simpa using hall 0 (by omega), by omega, ?_⟩
        intro j hj
        simpa using hall (j + 1) (by omega)

theorem patternClasses_length : patternClasses.length = 16 := rfl

theorem patternClasses_getD_eq (i : Nat) (hi : i < 16) (c : Char) :
    patternClasses.getD i (fun _ => false) c = specClassAt i c := by
  interval_cases i <;> rfl

theorem match16_iff (l : List Char) :
    matchClasses patternClasses l = true ↔
      (l.length = 16 ∧ ∀ i, i < 16 → specClassAt i (l.getD i ' ') = true) := by
  rw [matchClasses_iff, patternClasses_length]
  constructor
  · rintro ⟨h1, h2⟩
    exact ⟨h1, fun i hi => by rw [← patternClasses_getD_eq i hi]; exact h2 i hi⟩
  · rintro ⟨h1, h2⟩
    exact ⟨h1, fun i hi => by rw [patternClasses_getD_eq i hi]; exact h2 i hi⟩

theorem spec_pattern_ok_iff (s : String) :
    spec_pattern_ok s ↔ matchClasses patternClasses s.data = true := by
  rw [match16_iff]
  exact Iff.rfl

theorem getD_mem (l : List Char) (i : Nat) (hi : i < l.length) : l.getD i ' ' ∈ l := by
  rw [List.getD_eq_getElem?_getD, List.getElem?_eq_getElem hi]
  exact List.getElem_mem hi

theorem map_toUpper_fix (l : List Char) (h : ∀ c ∈ l, c ∈ ssnAlphabet) :
    l.map Char.toUpper = l := by
  induction l with
  | nil => rfl
  | cons c cs ih =>
    rw [List.map_cons, toUpper_mem_fix c (h c (List.mem_cons_self c cs)),
      ih (fun d hd => h d (List.mem_cons_of_mem c hd))]

/-
The claims.
-/

/-- C1: for every string of length at least 15 whose first 15 characters,
after uppercasing, lie in the 36-character alphabet, ssn_check_digit
weighs each of the first 15 characters with the odd-position table of the
spec at even 0-based indices and the even-position table at odd indices,
sums the 15 weights, and returns the character with code 65 plus the sum
modulo 26. -/
theorem claim_C1 (s : String) (h15 : 15 ≤ s.length)
    (hal : ∀ i, i < 15 → (s.data.map Char.toUpper).getD i ' ' ∈ ssnAlphabet) :
    ssn_check_digit s =
      Except.ok (Char.ofNat (65 +
        ((List.range 15).map
          (fun i => specWeight i ((s.data.map Char.toUpper).getD i ' '))).sum % 26)) := by
  have hdlen : 15 ≤ (s.data.map Char.toUpper).length := by
    rw [List.length_map, ← length_eq_data_length]
    exact h15
  have hsum := ssnSumAux_ok (s.data.map Char.toUpper) (List.range 15)
    (fun i hi => by
      have hi15 : i < 15 := List.mem_range.1 hi
      exact ⟨(s.data.map Char.toUpper).getD i ' ',
        getD_getElem? _ i (by omega), hal i hi15⟩)
  simp only [ssn_check_digit, hsum]
  rw [check_digits_getD]

/-- Witness for C1 at a concrete fiscal code. -/
theorem claim_C1_witness : ssn_check_digit "RCCMNL83S18D969H" = Except.ok 'H' := by
  have h := claim_C1 "RCCMNL83S18D969H" (by decide) (by decide)
  exact h.trans (by decide)

/-- C7: ssn_check_digit is total on 15-character strings over the
alphabet, returning a letter between A and Z with the invalid-character
branch unreachable, and whenever one of the first 15 characters after
uppercasing falls outside the alphabet it fails with an invalid-character
error carrying an offending character among the first 15. -/
theorem claim_C7 (s : String) :
    (s.length = 15 → (∀ c ∈ s.data, c ∈ ssnAlphabet) →
      ∃ c, ssn_check_digit s = Except.ok c ∧ 'A' ≤ c ∧ c ≤ 'Z') ∧
    (15 ≤ s.length →
      ∀ i, i < 15 → (s.data.map Char.toUpper).getD i ' ' ∉ ssnAlphabet →
      ∃ c, ssn_check_digit s = Except.error (PyErr.invalidCharacter c) ∧
        ∃ j, j < 15 ∧ (s.data.map Char.toUpper).getD j ' ' = c ∧ c ∉ ssnAlphabet) := by
  constructor
  · intro h15 hall
    have hdlen : s.data.length = 15 := by
      rw [← length_eq_data_length]
      exact h15
    have hup : s.data.map Char.toUpper = s.data := map_toUpper_fix s.data hall
    have hsum := ssnSumAux_ok (s.data.map Char.toUpper) (List.range 15)
      (fun i hi => by
        have hi15 : i < 15 := List.mem_range.1 hi
        rw [hup]
        exact ⟨s.data.getD i ' ', getD_getElem? _ i (by omega),
          hall _ (getD_mem s.data i (by omega))⟩)
    simp only [ssn_check_digit, hsum]
    refine ⟨_, rfl, ?_⟩
    rw [check_digits_getD]
    exact ofNat_65_in_AZ _ (Nat.mod_lt _ (by omega))
  · intro h15 i hi hnot
    have hdlen : 15 ≤ (s.data.map Char.toUpper).length := by
      rw [List.length_map, ← length_eq_data_length]
      exact h15
    obtain ⟨c, hc, j, hj, hjc, hcn⟩ := ssnSumAux_err (s.data.map Char.toUpper) (List.range 15)
      (fun j hj => by
        have := List.mem_range.1 hj
        omega)
      ⟨i, List.mem_range.2 hi, hnot⟩
    refine ⟨c, ?_, j, List.mem_range.1 hj, hjc, hcn⟩
    simp only [ssn_check_digit, hc]

/-- Witness for C7: a correct 15-character computation and a rejected
string whose character at index 13 is a commercial at. -/
theorem claim_C7_witness :
    (∃ c, ssn_check_digit "RCCMNL83S18D969" = Except.ok c ∧ 'A' ≤ c ∧ c ≤ 'Z') ∧
    (∃ c, ssn_check_digit "RCCMNL83S18D9@9H" = Except.error (PyErr.invalidCharacter c) ∧
      ∃ j, j < 15 ∧ ("RCCMNL83S18D9@9H".data.map Char.toUpper).getD j ' ' = c ∧
        c ∉ ssnAlphabet) :=
  ⟨(claim_C7 "RCCMNL83S18D969").1 (by decide) (by decide),
   (claim_C7 "RCCMNL83S18D9@9H").2 (by decide) 13 (by decide) (by decide)⟩

/-- C4: on a 16-character code whose first 15 characters are in the
alphabet, ssn_validation returns the code unchanged exactly when the
16th character equals the computed check digit, raises a checksum
mismatch exactly when it does not, and replacing the last character by
any other character always raises the mismatch. -/
theorem claim_C4 (s : String) (cd : Char) (h16 : s.length = 16)
    (hal : ∀ i, i < 15 → s.data.getD i ' ' ∈ ssnAlphabet)
    (hcd : ssn_check_digit s = Except.ok cd) :
    (ssn_validation s = Except.ok s ↔ s.data.getD 15 ' ' = cd) ∧
    (ssn_validation s = Except.error PyErr.checksumMismatch ↔ s.data.getD 15 ' ' ≠ cd) ∧
    (∀ c, c ≠ cd →
      ssn_validation (String.mk (s.data.take 15 ++ [c])) =
        Except.error PyErr.checksumMismatch) := by
  have hdlen : s.data.length = 16 := by
    rw [← length_eq_data_length]
    exact h16
  have h15 : s.data[15]? = some (s.data.getD 15 ' ') := getD_getElem? _ 15 (by omega)
  have hval : ssn_validation s =
      (if s.data.getD 15 ' ' ≠ cd then Except.error PyErr.checksumMismatch
       else Except.ok s) := by
    simp only [ssn_validation, hcd, h15]
  refine ⟨?_, ?_, ?_⟩
  · rw [hval]
    by_cases hq : s.data.getD 15 ' ' = cd
    · simp [hq]
    · simp [hq]
  · rw [hval]
    by_cases hq : s.data.getD 15 ' ' = cd
    · simp [hq]
    · simp [hq]
  · intro c hc
    have htake : (s.data.take 15).length = 15 := by
      rw [List.length_take]
      omega
    have hagree : ∀ i ∈ List.range 15,
        ((s.data.take 15 ++ [c]).map Char.toUpper)[i]? = (s.data.map Char.toUpper)[i]? := by
      intro i hi
      have hi15 : i < 15 := List.mem_range.1 hi
      rw [List.getElem?_map, List.getElem?_map]
      rw [List.getElem?_append_left (by omega), List.getElem?_take_of_lt hi15]
    have hsum2 : ssnSumAux ((s.data.take 15 ++ [c]).map Char.toUpper) (List.range 15) =
        ssnSumAux (s.data.map Char.toUpper) (List.range 15) :=
      ssnSumAux_congr _ _ _ hagree
    have hdata : (String.mk (s.data.take 15 ++ [c])).data = s.data.take 15 ++ [c] := rfl
    have hcd2 : ssn_check_digit (String.mk (s.data.take 15 ++ [c])) = Except.ok cd := by
      simp only [ssn_check_digit] at hcd ⊢
      rw [hsum2]
      exact hcd
    have hidx : (s.data.take 15 ++ [c])[15]? = some c := by
      rw [List.getElem?_append_right (by omega)]
      rw [htake]
      rfl
    simp only [ssn_validation, hcd2, hdata, hidx, if_pos hc]

/-- Witness for C4: the reference code round-trips. -/
theorem claim_C4_witness :
    ssn_validation "RCCMNL83S18D969H" = Except.ok "RCCMNL83S18D969H" :=
  ((claim_C4 "RCCMNL83S18D969H" 'H' (by decide) (by decide) (by decide)).1).mpr (by decide)

/-- C2 amended: on every syntactically valid code, ssn_get_birthday
formats day, month and year with width-two zero padding, where the day
is the two-digit integer at positions 10 and 11 with 40 subtracted when
that integer is greater than 31 or equal to 0 (the source truthiness
expression turns a zero day into minus forty), the month is one plus the
index of the letter at position 9 in MONTHSCODE, and the year is the
two-digit integer at positions 7 and 8 verbatim. -/
theorem claim_C2 (code : String) (d y : Int) (m : Nat)
    (hv : ssn_isvalidStr code = true)
    (hd : pyIntOfString (strSlice code 9 11) = some d)
    (hy : pyIntOfString (strSlice code 6 8) = some y)
    (hm : MONTHSCODE.indexOf? (code.data.getD 8 ' ') = some m) :
    ssn_get_birthday code =
      Except.ok (fmt02 (if 31 < d ∨ d = 0 then d - 40 else d) ++ "/" ++
        fmt02 ((m : Int) + 1) ++ "/" ++ fmt02 y) := by
  have hday : (if d < 32 ∧ d ≠ 0 then d else d - 40) =
      (if 31 < d ∨ d = 0 then d - 40 else d) := by
    split_ifs <;> omega
  simp only [ssn_get_birthday, hv, eq_self_iff_true, if_true, hd, hy, hm, hday]

/-- Witness for C2 at the reference code. -/
theorem claim_C2_witness :
    ssn_get_birthday "RCCMNL83S18D969H" = Except.ok "18/11/83" := by
  have h := claim_C2 "RCCMNL83S18D969H" 18 83 10 (by decide) (by decide) (by decide) (by decide)
  exact h.trans (by decide)

/-- Counterexample to C2 as stated: the day field 00 passes the
syntactic validation, yet the truthiness expression subtracts 40 from
the zero day and the birthday string starts with minus forty instead of
the claimed 00. -/
theorem claim_C2_counterexample :
    ssn_isvalid (PyVal.pyStr "RCCMNL83S00D969H") = true ∧
    ssn_get_birthday "RCCMNL83S00D969H" = Except.ok "-40/11/83" ∧
    ssn_get_birthday "RCCMNL83S00D969H" ≠ Except.ok "00/11/83" :=
  ⟨by decide, by decide, by decide⟩

/-- C8: on every syntactically valid code, ssn_get_sex returns M when
the raw two-digit day value is below 32 and F otherwise. -/
theorem claim_C8 (code : String) (d : Int)
    (hv : ssn_isvalidStr code = true)
    (hd : pyIntOfString (strSlice code 9 11) = some d) :
    ssn_get_sex code = Except.ok (if d < 32 then "M" else "F") := by
  simp only [ssn_get_sex, hv, eq_self_iff_true, if_true, hd]

/-- Witness for C8 at both reference codes. -/
theorem claim_C8_witness :
    ssn_get_sex "RCCMNL83S18D969H" = Except.ok "M" ∧
    ssn_get_sex "CNTCHR83T41D969D" = Except.ok "F" :=
  ⟨(claim_C8 "RCCMNL83S18D969H" 18 (by decide) (by decide)).trans (by decide),
   (claim_C8 "CNTCHR83T41D969D" 41 (by decide) (by decide)).trans (by decide)⟩

/-- C3 amended: ssn_isvalid holds exactly on string inputs that either
satisfy the sixteen-character positional pattern, or consist of a
pattern-satisfying sixteen-character prefix followed by one final
newline (the dollar anchor of the Python re module also matches just
before a trailing newline); every non-string input yields false. -/
theorem claim_C3 (v : PyVal) :
    ssn_isvalid v = true ↔
      ∃ s : String, v = PyVal.pyStr s ∧
        (spec_pattern_ok s ∨
          (s.data.getLast? = some '\n' ∧ spec_pattern_ok (String.mk s.data.dropLast))) := by
  cases v with
  | nonStr =>
    constructor
    · intro h
      exact absurd h (by simp [ssn_isvalid])
    · rintro ⟨s, h, _⟩
      exact PyVal.noConfusion h
  | pyStr s =>
    simp only [ssn_isvalid, reMatchPattern, Bool.or_eq_true, Bool.and_eq_true,
      decide_eq_true_eq]
    constructor
    · rintro (h | ⟨hlast, hmatch⟩)
      · exact ⟨s, rfl, Or.inl ((spec_pattern_ok_iff s).2 h)⟩
      · exact ⟨s, rfl, Or.inr ⟨hlast, (spec_pattern_ok_iff _).2 hmatch⟩⟩
    · rintro ⟨s2, heq, h⟩
      have hs : s2 = s := (PyVal.pyStr.inj heq).symm
      subst hs
      rcases h with h | ⟨hlast, hm⟩
      · exact Or.inl ((spec_pattern_ok_iff _).1 h)
      · exact Or.inr ⟨hlast, (spec_pattern_ok_iff _).1 hm⟩

/-- Counterexample to C3 as stated: a seventeen-character string ending
in a newline is accepted by ssn_isvalid, so acceptance is not restricted
to strings of exactly sixteen characters. -/
theorem claim_C3_counterexample :
    ssn_isvalid (PyVal.pyStr "RCCMNL83S18D969H\n") = true ∧
    "RCCMNL83S18D969H\n".length ≠ 16 :=
  ⟨by decide, by decide⟩

/-- C5: on every ten-character digit string, vat_number_check_digit adds
the digits at even 0-based positions and the quotient plus remainder of
twice the digits at odd 0-based positions, and returns the digit
character of (10 minus the sum modulo 10) modulo 10. -/
theorem claim_C5 (s : String) (h10 : s.length = 10)
    (hd : ∀ c ∈ s.data, c.isDigit = true) :
    vat_number_check_digit s =
      Except.ok (digitChar ((10 - specVatSum s.data % 10) % 10)) := by
  have h := vat_check_digit_ok s hd
  rw [zfill_of_le s 10 (by omega)] at h
  exact h

/-- Witness for C5: the check digit of 1234567001 is 7. -/
theorem claim_C5_witness : vat_number_check_digit "1234567001" = Except.ok '7' :=
  (claim_C5 "1234567001" (by decide) (by decide)).trans (by decide)

/-- C6 amended: vat_number_validation raises the invalid-literal error
on inputs that do not parse as an integer; on inputs parsing to a
nonnegative integer the check digit of the first ten characters of the
zero-padded form always computes, the normalized string is returned
exactly when its character at index 10 equals that check digit and the
checksum mismatch is raised exactly when it does not; and on inputs
parsing to a negative integer the check-digit loop fails on the sign
character with an invalid-literal error instead. -/
theorem claim_C6 (v : PyStrInt) :
    (pyInt v = none →
      vat_number_validation v = Except.error (PyErr.invalidLiteral (rawStr v))) ∧
    (∀ n : Int, pyInt v = some n → 0 ≤ n →
      ∃ cd, vat_number_check_digit (strSlice (zfill (pyStrOfInt n) 11) 0 10) =
        Except.ok cd) ∧
    (∀ (n : Int) (cd : Char), pyInt v = some n →
      vat_number_check_digit (strSlice (zfill (pyStrOfInt n) 11) 0 10) = Except.ok cd →
      ((zfill (pyStrOfInt n) 11).data.getD 10 ' ' = cd →
        vat_number_validation v = Except.ok (zfill (pyStrOfInt n) 11)) ∧
      ((zfill (pyStrOfInt n) 11).data.getD 10 ' ' ≠ cd →
        vat_number_validation v = Except.error PyErr.checksumMismatch)) ∧
    (∀ n : Int, pyInt v = some n → n < 0 →
      vat_number_validation v = Except.error (PyErr.invalidLiteral "-")) := by
  refine ⟨?_, ?_, ?_, ?_⟩
  · intro h
    simp only [vat_number_validation, h]
  · intro n _ hnn
    exact ⟨_, vat_check_digit_ok _
      (slice_digits _ _ _ (zfill_data_digits _ _ (pyStrOfInt_digits n hnn)))⟩
  · intro n cd hn hcd
    constructor
    · intro heq
      rw [vat_validation_some v n hn cd hcd, if_neg (fun hh => hh heq)]
    · intro hne
      rw [vat_validation_some v n hn cd hcd, if_pos hne]
  · exact fun n hn hneg => vat_validation_neg v n hn hneg

/-- Witness for C6: the reference VAT number 12345670017 is accepted and
returned in normalized form. -/
theorem claim_C6_witness :
    vat_number_validation (PyStrInt.ofStr "12345670017") = Except.ok "12345670017" := by
  have h := ((claim_C6 (PyStrInt.ofStr "12345670017")).2.2.1 12345670017 '7'
    (by decide) (by decide)).1 (by decide)
  exact h.trans (by decide)

/-- Counterexample to C6 as stated: the input -5 parses as an integer,
yet validation raises neither the checksum mismatch nor returns a
string: the check-digit loop fails on the sign character of the
zero-padded form with an invalid-literal error. -/
theorem claim_C6_counterexample :
    pyInt (PyStrInt.ofStr "-5") = some (-5) ∧
    vat_number_validation (PyStrInt.ofStr "-5") =
      Except.error (PyErr.invalidLiteral "-") ∧
    vat_number_validation (PyStrInt.ofStr "-5") ≠
      Except.error PyErr.checksumMismatch :=
  ⟨by decide, by decide, by decide⟩

/-- C9: validate once, validate again: whenever vat_number_validation
returns a normalized string, validating that string succeeds and
returns the very same string. -/
theorem claim_C9 (v : PyStrInt) (s : String)
    (h : vat_number_validation v = Except.ok s) :
    vat_number_validation (PyStrInt.ofStr s) = Except.ok s := by
  obtain ⟨n, cd, hv, hn, hs, hcd, hq⟩ := vat_validation_ok_inv v s h
  subst hs
  have hp : pyInt (PyStrInt.ofStr (zfill (pyStrOfInt n) 11)) = some n :=
    pyInt_zfill_pyStr n hn
  rw [vat_validation_some _ n hp cd hcd, if_neg (fun hh => hh hq)]

/-- Witness for C9: validating the normalization of 00012345670017 a
second time returns it unchanged. -/
theorem claim_C9_witness :
    vat_number_validation (PyStrInt.ofStr "12345670017") = Except.ok "12345670017" :=
  claim_C9 (PyStrInt.ofStr "00012345670017") "12345670017" (by decide)

/-- C10: an input parsing to a nonnegative integer with more than eleven
decimal digits is left unchanged by the zero padding, no length error is
raised, and the string is returned as is whenever its character at index
10 equals the check digit of its first ten characters. -/
theorem claim_C10 (v : PyStrInt) (n : Int) (cd : Char)
    (hn : pyInt v = some n) (hnn : 0 ≤ n) (hlen : 11 < (pyStrOfInt n).length) :
    zfill (pyStrOfInt n) 11 = pyStrOfInt n ∧
    (vat_number_check_digit (strSlice (pyStrOfInt n) 0 10) = Except.ok cd →
      (pyStrOfInt n).data.getD 10 ' ' = cd →
      vat_number_validation v = Except.ok (pyStrOfInt n)) := by
  have hz : zfill (pyStrOfInt n) 11 = pyStrOfInt n := zfill_of_le _ _ (by omega)
  refine ⟨hz, fun hcd heq => ?_⟩
  have h2 := vat_validation_some v n hn cd (by rw [hz]; exact hcd)
  rw [hz] at h2
  rw [h2, if_neg (fun hh => hh heq)]

/-- Witness for C10: the twelve-digit input 123456700170 is accepted and
returned unchanged. -/
theorem claim_C10_witness :
    vat_number_validation (PyStrInt.ofStr "123456700170") = Except.ok "123456700170" := by
  have h := (claim_C10 (PyStrInt.ofStr "123456700170") 123456700170 '7'
    (by decide) (by decide) (by decide)).2 (by decide) (by decide)
  exact h.trans (by decide)
